import Mathlib

/-!
Verification of the llmux orchestrator against its specification.

Rust strings are modelled as lists of Unicode scalar values (`List Char`);
a UTF-8 byte-level substring match of well-formed strings always falls on
character boundaries, so the char-level model is faithful for the string
searches below.  File paths are also `List Char`.  The working tree is an
association list from path to content.  Clock readings, process spawning
and OS-level I/O failures are outside the model: file reads and writes
are total, and the millisecond timestamp that names a backup blob is
replaced by a fresh counter (the code only needs those names to be fresh).
-/

namespace Llmux

deriving instance DecidableEq for Except

/-- Rust strings modelled as lists of Unicode scalar values. -/
abbrev Str := List Char

/-- Shorthand turning a Lean string literal into the `Str` model. -/
def txt (s : String) : Str := s.data

/-- Rust `char::is_whitespace`: the Unicode White_Space property
(src/src/apply_and_verify/edit_parser.rs uses it through `str::trim_end`). -/
def rust_is_whitespace (c : Char) : Bool :=
  (0x9 ≤ c.toNat && c.toNat ≤ 0xD) || c.toNat == 0x20 || c.toNat == 0x85 ||
  c.toNat == 0xA0 || c.toNat == 0x1680 ||
  (0x2000 ≤ c.toNat && c.toNat ≤ 0x200A) || c.toNat == 0x2028 ||
  c.toNat == 0x2029 || c.toNat == 0x202F || c.toNat == 0x205F ||
  c.toNat == 0x3000

/-- Rust `str::trim_end`: drop trailing whitespace characters. -/
def trim_end (s : Str) : Str :=
  (s.reverse.dropWhile rust_is_whitespace).reverse

/-- Helper for `rust_lines`: split after every newline, keeping the newline
inside its chunk (Rust `str::split_inclusive`). `acc` is the reversed
current chunk. -/
def splitInclNlAux : Str → Str → List Str
  | acc, [] => if acc.isEmpty then [] else [acc.reverse]
  | acc, c :: rest =>
      if c = '\n' then (acc.reverse ++ ['\n']) :: splitInclNlAux [] rest
      else splitInclNlAux (c :: acc) rest

/-- Rust `str::split_inclusive` at newlines. -/
def splitInclNl (s : Str) : List Str := splitInclNlAux [] s

/-- The per-chunk map of Rust `str::lines`: strip one trailing newline, and
when one was stripped also one trailing carriage return. -/
def lineMap (l : Str) : Str :=
  if l.getLast? = some '\n' then
    let l1 := l.dropLast
    if l1.getLast? = some '\r' then l1.dropLast else l1
  else l

/-- Rust `str::lines` (src uses it pervasively): the final line ending is
optional, `\r\n` sequences count as one line ending. -/
def rust_lines (s : Str) : List Str := (splitInclNl s).map lineMap

/-- Model of `normalize_whitespace` (src/src/apply_and_verify/edit_parser.rs
lines 294-302): trim trailing whitespace off every line and join the lines
with newlines. -/
def normalize_whitespace (s : Str) : Str :=
  List.intercalate ['\n'] ((rust_lines s).map trim_end)

/-- Model of `DiffApplier::context_matches`
(src/src/apply_and_verify/diff_applier.rs lines 282-296): the context lines
match at `pos` when they fit inside the file and each one equals the
corresponding file line up to `normalize_whitespace`. -/
def context_matches (lines : List Str) (pos : Nat) (context : List Str) : Bool :=
  if lines.length < pos + context.length then false
  else (List.range context.length).all fun i =>
    normalize_whitespace (lines.getD (pos + i) []) ==
      normalize_whitespace (context.getD i [])

/-! ### Template filters (src/src/template/filters.rs) -/

/-- Model of Rust `char::is_alphanumeric` (Unicode Alphabetic or numeric
general category), written out exactly for the Latin-1 range
U+0000..U+00FF.  Codepoints above U+00FF are outside the model and mapped
to false; theorems that depend on this predicate are stated for Latin-1
strings only. -/
def rust_is_alphanumeric (c : Char) : Bool :=
  let n := c.toNat
  (0x30 ≤ n && n ≤ 0x39) || (0x41 ≤ n && n ≤ 0x5A) || (0x61 ≤ n && n ≤ 0x7A) ||
  n == 0xAA || n == 0xB2 || n == 0xB3 || n == 0xB5 || n == 0xB9 || n == 0xBA ||
  (0xBC ≤ n && n ≤ 0xBE) || (0xC0 ≤ n && n ≤ 0xD6) || (0xD8 ≤ n && n ≤ 0xF6) ||
  (0xF8 ≤ n && n ≤ 0xFF)

/-- The per-character guard of `filter_shell_escape`
(src/src/template/filters.rs lines 27-29). -/
def shell_escape_safe (c : Char) : Bool :=
  rust_is_alphanumeric c || c == '_' || c == '-' || c == '.' || c == '/'

/-- Model of `filter_shell_escape` (src/src/template/filters.rs lines
23-47): return the string unchanged when every character passes the guard,
otherwise wrap it in single quotes, turning each embedded single quote
into quote, backslash, quote, quote. -/
def filter_shell_escape (s : Str) : Str :=
  if s.all shell_escape_safe then s
  else
    ['\''] ++
      (s.map fun c =>
        if c = '\'' then ['\'', '\\', '\'', '\''] else [c]).flatten ++
    ['\'']

/-- The character class named by the spec sentence for `shell_escape`:
`[A-Za-z0-9_\-./]` read literally (spec side of the comparison, for the
counterexample). -/
def ascii_safe_class (c : Char) : Bool :=
  ('A' ≤ c && c ≤ 'Z') || ('a' ≤ c && c ≤ 'z') || ('0' ≤ c && c ≤ '9') ||
  c == '_' || c == '-' || c == '.' || c == '/'

/-! ### Typo suggestions (src/src/template/errors.rs) -/

/-- Rust `usize::MAX` on a 64-bit target, the sentinel initial value of
`best_distance` in `suggest_correction`. -/
def USIZE_MAX : Nat := 2 ^ 64 - 1

/-- Rust `str::len`: the UTF-8 byte length of a string. -/
def utf8_len (s : Str) : Nat := (s.map Char.utf8Size).sum

/-- Inner-loop of one row of the Levenshtein matrix
(src/src/template/errors.rs lines 171-181): `left` is the entry to the
left in the current row, `prevPrev` the diagonal entry of the previous
row, `prevRest` the rest of the previous row, walked along `b`. -/
def levRowGo (ca : Char) : Nat → Nat → List Nat → Str → List Nat
  | _, _, _, [] => []
  | _, _, [], _ :: _ => []
  | left, prevPrev, pj :: ps, cb :: bs =>
      let cost := if ca = cb then 0 else 1
      let cur := min (min (pj + 1) (left + 1)) (prevPrev + cost)
      cur :: levRowGo ca cur pj ps bs

/-- Row `i` of the Levenshtein matrix from row `i - 1`: the first entry is
`i` (`matrix[i][0] = i`). -/
def levRow (prev : List Nat) (i : Nat) (ca : Char) (b : Str) : List Nat :=
  match prev with
  | [] => [i]
  | p0 :: ps => i :: levRowGo ca i p0 ps b

/-- All rows of the Levenshtein matrix, keeping the last. -/
def levLoop (b : Str) : List Nat → Nat → Str → List Nat
  | prev, _, [] => prev
  | prev, i, ca :: rest => levLoop b (levRow prev i ca b) (i + 1) rest

/-- Model of `levenshtein_distance` (src/src/template/errors.rs lines
149-185): dynamic programming over the edit-distance matrix, row by row;
the answer is `matrix[a_len][b_len]`. -/
def levenshtein_distance (a b : Str) : Nat :=
  if a.length = 0 then b.length
  else if b.length = 0 then a.length
  else (levLoop b (List.range (b.length + 1)) 1 a).getLastD 0

/-- The candidate loop of `suggest_correction`
(src/src/template/errors.rs lines 137-143): a candidate replaces the best
match when its distance is strictly smaller than the best so far and
within `maxd`. -/
def suggestGo (typo : Str) (maxd : Nat) :
    Option Str → Nat → List Str → Option Str × Nat
  | best, bestd, [] => (best, bestd)
  | best, bestd, c :: cs =>
      if levenshtein_distance typo c < bestd ∧ levenshtein_distance typo c ≤ maxd then
        suggestGo typo maxd (some c) (levenshtein_distance typo c) cs
      else suggestGo typo maxd best bestd cs

/-- Model of `suggest_correction` (src/src/template/errors.rs lines
128-146): the nearest candidate within edit distance
`max(typo.len() / 2, 2)`, none when the candidate list is empty or no
candidate is within the bound. -/
def suggest_correction (typo : Str) (candidates : List Str) : Option Str :=
  if candidates.isEmpty then none
  else (suggestGo typo (max (utf8_len typo / 2) 2) none USIZE_MAX candidates).1

/-! ### Diff application (src/src/apply_and_verify/diff_applier.rs) -/

/-- Rust `str::starts_with` on the char-level model. -/
def starts_with : Str → Str → Bool
  | _, [] => true
  | [], _ :: _ => false
  | c :: cs, p :: ps => c == p && starts_with cs ps

/-- Non-overlapping occurrence scan of a non-empty pattern, as Rust
`str::match_indices` walks a haystack: after a hit the search resumes past
the whole match.  The fuel starts at the haystack length; every call
consumes at least one character, so it never runs out before the scan
ends. -/
def count_matches_go (pat : Str) : Nat → Str → Nat
  | 0, _ => 0
  | _ + 1, [] => 0
  | fuel + 1, c :: rest =>
      if starts_with (c :: rest) pat then
        1 + count_matches_go pat fuel (List.drop (pat.length - 1) rest)
      else count_matches_go pat fuel rest

/-- The number of matches `str::match_indices` yields
(src/src/apply_and_verify/diff_applier.rs line 310).  An empty pattern
matches at every character boundary, so `len + 1` times. -/
def count_matches (hay pat : Str) : Nat :=
  if pat.isEmpty then hay.length + 1 else count_matches_go pat hay.length hay

/-- Helper for `replacen_one`: replace the first occurrence of the
non-empty pattern. -/
def replacen_one_go (pat repl : Str) : Str → Str
  | [] => []
  | c :: rest =>
      if starts_with (c :: rest) pat then repl ++ List.drop (pat.length - 1) rest
      else c :: replacen_one_go pat repl rest

/-- Rust `str::replacen(pat, repl, 1)`
(src/src/apply_and_verify/diff_applier.rs line 325): replace the first
occurrence, the whole string unchanged when there is none; an empty
pattern matches at position 0. -/
def replacen_one (s pat repl : Str) : Str :=
  if pat.isEmpty then repl ++ s else replacen_one_go pat repl s

/-- The error type of the diff applier
(src/src/apply_and_verify/diff_applier.rs lines 13-35); the I/O-carrying
variants (read, write, backup source errors) are outside the model, their
operations being total here. -/
inductive ApplyError
  | fileNotFound (path : Str)
  | oldTextNotFound (path : Str)
  | hunkContextNotFound (path : Str) (expected_line : Nat)
  | ambiguousMatch (path : Str)
deriving DecidableEq

/-- The inner window test of `replace_normalized`
(src/src/apply_and_verify/diff_applier.rs lines 356-362): every `old` line
equals the file line `i + j` under `normalize_whitespace`.  The source
indexes `content_lines[i + j]` directly; that access is in bounds whenever
the function is reached (the caller's single-normalized-match guard
forces `old` to have no more lines than the file), and the model
totalizes it with a default. -/
def window_matches (content_lines old_lines : List Str) (i : Nat) : Bool :=
  (List.range old_lines.length).all fun j =>
    normalize_whitespace (content_lines.getD (i + j) []) ==
      normalize_whitespace (old_lines.getD j [])

/-- Model of `DiffApplier::replace_normalized`
(src/src/apply_and_verify/diff_applier.rs lines 344-377): find the first
window of file lines matching `old`'s lines under `normalize_whitespace`
and splice `new`'s lines over it; the error carries the empty path just
as the source leaves `PathBuf::new()` for the caller. -/
def replace_normalized (content old new : Str) : Except ApplyError Str :=
  match (List.range ((rust_lines content).length - (rust_lines old).length + 1)).find?
      (fun i => window_matches (rust_lines content) (rust_lines old) i) with
  | some i =>
      .ok (List.intercalate ['\n']
        ((rust_lines content).take i ++ rust_lines new ++
          (rust_lines content).drop (i + (rust_lines old).length)))
  | none => .error (.oldTextNotFound [])

/-- Model of `DiffApplier::apply_old_new`
(src/src/apply_and_verify/diff_applier.rs lines 299-341) on the file's
content: count the matches of the normalized old text in the normalized
content, then replace the first literal occurrence, falling back to the
line-aligned normalized splice when literal replacement changes
nothing. -/
def apply_old_new (path : Str) (content old new : Str) : Except ApplyError Str :=
  if count_matches (normalize_whitespace content) (normalize_whitespace old) = 0 then
    .error (.oldTextNotFound path)
  else if 1 < count_matches (normalize_whitespace content) (normalize_whitespace old) then
    .error (.ambiguousMatch path)
  else if replacen_one content old new = content then
    replace_normalized content old new
  else .ok (replacen_one content old new)

/-- A line of a diff hunk (src/src/apply_and_verify/edit_parser.rs lines
65-70). -/
inductive DiffLine
  | context (s : Str)
  | add (s : Str)
  | remove (s : Str)
deriving DecidableEq

/-- A hunk of a unified diff (src/src/apply_and_verify/edit_parser.rs
lines 50-62). -/
structure DiffHunk where
  old_start : Nat
  old_count : Nat
  new_start : Nat
  new_count : Nat
  lines : List DiffLine
deriving DecidableEq

/-- Maximum line drift for fuzzy hunk matching
(src/src/apply_and_verify/diff_applier.rs line 10). -/
def MAX_LINE_DRIFT : Nat := 3

/-- The context+removed lines of a hunk, the anchor
`DiffApplier::apply_hunk` matches against
(src/src/apply_and_verify/diff_applier.rs lines 197-204). -/
def hunk_context_lines (h : DiffHunk) : List Str :=
  h.lines.filterMap fun l =>
    match l with
    | .context s => some s
    | .remove s => some s
    | .add _ => none

/-- Model of `DiffApplier::find_hunk_position`
(src/src/apply_and_verify/diff_applier.rs lines 244-279): no context means
the expected position; otherwise search within `MAX_LINE_DRIFT` of
`old_start - 1`, then the whole file.  Subtraction on `Nat` is the
source's `saturating_sub`. -/
def find_hunk_position (lines : List Str) (context_lines : List Str)
    (expected_start : Nat) : Except ApplyError Nat :=
  if context_lines.isEmpty then .ok (expected_start - 1)
  else
    let expected_pos := expected_start - 1
    let search_start := expected_pos - MAX_LINE_DRIFT
    let search_end := min (expected_pos + MAX_LINE_DRIFT) lines.length
    match (List.range' search_start (search_end - search_start)).find?
        (fun pos => context_matches lines pos context_lines) with
    | some pos => .ok pos
    | none =>
        match (List.range lines.length).find?
            (fun pos => context_matches lines pos context_lines) with
        | some pos => .ok pos
        | none => .error (.hunkContextNotFound [] expected_start)

/-- Model of `DiffApplier::apply_hunk`
(src/src/apply_and_verify/diff_applier.rs lines 190-241): anchor the hunk,
then splice its context+added lines over the context+removed window,
clamped to the file bounds. -/
def apply_hunk (lines : List Str) (hunk : DiffHunk) :
    Except ApplyError (List Str) := do
  let context_lines := hunk_context_lines hunk
  let match_pos ← find_hunk_position lines context_lines hunk.old_start
  let new_lines := hunk.lines.filterMap fun l =>
    match l with
    | .context s => some s
    | .add s => some s
    | .remove _ => none
  let remove_count := (hunk.lines.filter fun l =>
    match l with
    | .context _ => true
    | .remove _ => true
    | .add _ => false).length
  let actual_match_pos :=
    if lines.length ≤ match_pos then lines.length - remove_count
    else match_pos
  let stop := min (actual_match_pos + remove_count) lines.length
  pure (lines.take actual_match_pos ++ new_lines ++ lines.drop stop)

/-- Whether the original content ended with a newline, which
`apply_unified_diff` preserves. -/
def ends_with_nl (s : Str) : Bool := s.getLast? == some '\n'

/-- Model of `DiffApplier::apply_unified_diff`
(src/src/apply_and_verify/diff_applier.rs lines 160-187) on the file's
content: split into lines, apply the hunks in reverse declaration order,
rejoin, restoring the trailing newline when the original had one. -/
def apply_unified_diff (content : Str) (hunks : List DiffHunk) :
    Except ApplyError Str := do
  let lines2 ← hunks.reverse.foldlM apply_hunk (rust_lines content)
  pure (if ends_with_nl content then List.intercalate ['\n'] lines2 ++ ['\n']
        else List.intercalate ['\n'] lines2)

/-- Sequential one-hunk-at-a-time application: the reading of "applying
the hunks one at a time" in the reverse-hunk-application property (spec
side of the comparison for that property). -/
def apply_hunks_seq : List Str → List DiffHunk → Except ApplyError (List Str)
  | lines, [] => .ok lines
  | lines, h :: hs => do
      let lines2 ← apply_hunk lines h
      apply_hunks_seq lines2 hs

/-! ### Edit parsing (src/src/apply_and_verify/edit_parser.rs) -/

/-- A normalized edit operation (src/src/apply_and_verify/edit_parser.rs
lines 34-47). -/
inductive EditOperation
  | unifiedDiff (path : Str) (hunks : List DiffHunk)
  | oldNewPair (path : Str) (old new : Str)
  | fullFile (path : Str) (content : Str)
deriving DecidableEq

/-- Errors of the edit format decoding
(src/src/apply_and_verify/edit_parser.rs lines 15-30). -/
inductive EditParseError
  | noEditsFound
  | invalidDiff (message : Str)
  | missingField (field : Str)
  | jsonError
  | ambiguousFormat
deriving DecidableEq

/-- Model of `parse_edits` (src/src/apply_and_verify/edit_parser.rs lines
102-127).  The three decoding passes it dispatches over — the unified-diff
scanner, the serde-JSON decoding and the fenced-code-block extractor — are
regex/serde-library routines and enter the model as oracle arguments; the
dispatch itself is translated line for line: each pass is consulted in
order and the first non-empty successful result wins, everything else
falls through to `NoEditsFound`.  `nonempty_result` is the shared
`if let Ok(edits) = … { if !edits.is_empty() { return Ok(edits); } }`
shape of one pass. -/
def nonempty_result (r : Except EditParseError (List EditOperation)) :
    Option (List EditOperation) :=
  match r with
  | .ok edits => if edits.isEmpty then none else some edits
  | .error _ => none

/-- Model of `parse_edits` (src/src/apply_and_verify/edit_parser.rs lines
102-127): the dispatch over the three passes. -/
def parse_edits (parse_unified_diff : Str → Except EditParseError (List EditOperation))
    (parse_json_edits : Str → Except EditParseError (List EditOperation))
    (extract_json_block : Str → Option Str) (output : Str) :
    Except EditParseError (List EditOperation) :=
  match nonempty_result (parse_unified_diff output) with
  | some edits => .ok edits
  | none =>
    match nonempty_result (parse_json_edits output) with
    | some edits => .ok edits
    | none =>
      match extract_json_block output with
      | some json_str =>
          match nonempty_result (parse_json_edits json_str) with
          | some edits => .ok edits
          | none => .error .noEditsFound
      | none => .error .noEditsFound

/-! ### Backend errors and the retry wrapper
(src/src/backend_executor/types.rs, src/src/backend_executor/retry.rs) -/

/-- The backend error taxonomy (src/src/backend_executor/types.rs lines
13-53).  The payloads (durations, messages, exit codes) play no part in
the control flow modelled here and are dropped. -/
inductive BackendError
  | timeout
  | rateLimit
  | auth
  | network
  | parse
  | executionFailed
  | unavailable
  | config
deriving DecidableEq

/-- Model of `BackendError::is_retryable`
(src/src/backend_executor/types.rs lines 56-64): exactly Timeout,
RateLimit and Network are retryable. -/
def BackendError.is_retryable : BackendError → Bool
  | .timeout => true
  | .rateLimit => true
  | .network => true
  | .auth => false
  | .parse => false
  | .executionFailed => false
  | .unavailable => false
  | .config => false

/-- The retry loop of `RetryExecutor::execute`
(src/src/backend_executor/retry.rs lines 33-65).  `backend i` is the
result the wrapped executor's `i`-th invocation returns (an oracle for
the effectful call); the sleep between retries is a no-op here.  The
pair's second component counts the invocations made.  The fuel starts at
`max_retries + 1`, the number of loop iterations, so the fuel-exhausted
branch — like the source's fallback after the loop — is unreachable. -/
def retry_execute_go {α : Type} (max_retries : Nat)
    (backend : Nat → Except BackendError α) :
    Nat → Nat → Except BackendError α × Nat
  | 0, attempt => (.error .network, attempt)
  | fuel + 1, attempt =>
      match backend attempt with
      | .ok r => (.ok r, attempt + 1)
      | .error e =>
          if e.is_retryable = false ∨ attempt = max_retries then
            (.error e, attempt + 1)
          else retry_execute_go max_retries backend fuel (attempt + 1)

/-- Model of `RetryExecutor::execute`
(src/src/backend_executor/retry.rs lines 33-65). -/
def retry_execute {α : Type} (max_retries : Nat)
    (backend : Nat → Except BackendError α) : Except BackendError α × Nat :=
  retry_execute_go max_retries backend (max_retries + 1) 0

/-! ### The working tree and rollback
(src/src/apply_and_verify/rollback.rs) -/

/-- The working tree: an association list from path to content.  Paths
are unique in any tree built by the operations below from a duplicate-free
one. -/
abbrev FS := List (Str × Str)

/-- Read a file. -/
def fsRead (fs : FS) (p : Str) : Option Str :=
  (fs.find? fun e => e.1 == p).map (·.2)

/-- Whether a file exists. -/
def fsExists (fs : FS) (p : Str) : Bool :=
  (fs.find? fun e => e.1 == p).isSome

/-- Write a file, creating it when absent. -/
def fsWrite : FS → Str → Str → FS
  | [], p, c => [(p, c)]
  | e :: rest, p, c =>
      if e.1 == p then (p, c) :: rest else e :: fsWrite rest p c

/-- Remove a file when present. -/
def fsRemove : FS → Str → FS
  | [], _ => []
  | e :: rest, p => if e.1 == p then rest else e :: fsRemove rest p

/-- A modified file and its backup blob
(src/src/apply_and_verify/diff_applier.rs lines 47-51). -/
structure ModifiedFile where
  path : Str
  backup_path : Str
deriving DecidableEq

/-- The outcome a rollback reports
(src/src/apply_and_verify/rollback.rs lines 52-58). -/
structure RollbackResult where
  restored : List Str
  failed : List (Str × Str)
deriving DecidableEq

/-- Rollback errors (src/src/apply_and_verify/rollback.rs lines 12-25). -/
inductive RollbackError
  | gitFailed (path msg : Str)
  | backupRestoreFailed (path : Str)
  | backupNotFound (path : Str)
  | partialRollback (succeeded failed : Nat)
deriving DecidableEq

/-- The rollback strategy (src/src/apply_and_verify/rollback.rs lines
28-37). -/
inductive RollbackStrategy
  | git
  | backup
  | none
deriving DecidableEq

/-- The modified-files loop of `rollback_git`
(src/src/apply_and_verify/rollback.rs lines 96-120).  `head` gives each
path's content at the source-control checkpoint; `git checkout -- path`
succeeds exactly when the checkpoint has the path (the modelled failure
mode; process-spawn failures are out of scope). -/
def git_restore_loop (head : Str → Option Str) :
    FS → RollbackResult → List ModifiedFile → FS × RollbackResult
  | fs, r, [] => (fs, r)
  | fs, r, f :: rest =>
      match head f.path with
      | some content =>
          git_restore_loop head (fsWrite fs f.path content)
            { r with restored := r.restored ++ [f.path] } rest
      | none =>
          git_restore_loop head fs
            { r with failed := r.failed ++ [(f.path, txt "git checkout failed")] } rest

/-- The created-files loop shared by both strategies
(src/src/apply_and_verify/rollback.rs lines 123-132 and 177-186):
`fs::remove_file` succeeds exactly when the file exists. -/
def remove_created_loop : FS → RollbackResult → List Str → FS × RollbackResult
  | fs, r, [] => (fs, r)
  | fs, r, p :: rest =>
      if fsExists fs p then
        remove_created_loop (fsRemove fs p)
          { r with restored := r.restored ++ [p] } rest
      else
        remove_created_loop fs
          { r with failed := r.failed ++ [(p, txt "remove failed")] } rest

/-- The modified-files loop of `rollback_backup`
(src/src/apply_and_verify/rollback.rs lines 155-174): restore the backup
blob over the path and delete the blob; a missing blob is the modelled
failure (copy I/O errors are out of scope). -/
def backup_restore_loop : FS → RollbackResult → List ModifiedFile → FS × RollbackResult
  | fs, r, [] => (fs, r)
  | fs, r, f :: rest =>
      if fsExists fs f.backup_path then
        backup_restore_loop
          (fsRemove (fsWrite fs f.path ((fsRead fs f.backup_path).getD [])) f.backup_path)
          { r with restored := r.restored ++ [f.path] } rest
      else
        backup_restore_loop fs
          { r with failed := r.failed ++ [(f.path, txt "backup not found")] } rest

/-- Both loops of `rollback_git`, before the partial-rollback check. -/
def rollback_git_core (head : Str → Option Str) (fs : FS)
    (modified : List ModifiedFile) (created : List Str) : FS × RollbackResult :=
  let s1 := git_restore_loop head fs ⟨[], []⟩ modified
  remove_created_loop s1.1 s1.2 created

/-- Both loops of `rollback_backup`, before the partial-rollback check. -/
def rollback_backup_core (fs : FS) (modified : List ModifiedFile)
    (created : List Str) : FS × RollbackResult :=
  let s1 := backup_restore_loop fs ⟨[], []⟩ modified
  remove_created_loop s1.1 s1.2 created

/-- The partial-rollback check closing `rollback_git` and
`rollback_backup` (src/src/apply_and_verify/rollback.rs lines 134-141 and
188-195). -/
def rollback_finish (st : FS × RollbackResult) : FS × Except RollbackError RollbackResult :=
  if ¬ st.2.failed.isEmpty ∧ ¬ st.2.restored.isEmpty then
    (st.1, .error (.partialRollback st.2.restored.length st.2.failed.length))
  else (st.1, .ok st.2)

/-- Model of `rollback_git` (src/src/apply_and_verify/rollback.rs lines
85-142). -/
def rollback_git (head : Str → Option Str) (fs : FS)
    (modified : List ModifiedFile) (created : List Str) :
    FS × Except RollbackError RollbackResult :=
  rollback_finish (rollback_git_core head fs modified created)

/-- Model of `rollback_backup` (src/src/apply_and_verify/rollback.rs
lines 145-196). -/
def rollback_backup (fs : FS) (modified : List ModifiedFile)
    (created : List Str) : FS × Except RollbackError RollbackResult :=
  rollback_finish (rollback_backup_core fs modified created)

/-- Model of `rollback` (src/src/apply_and_verify/rollback.rs lines
68-82): dispatch on the strategy. -/
def rollback (strategy : RollbackStrategy) (head : Str → Option Str) (fs : FS)
    (modified : List ModifiedFile) (created : List Str) :
    FS × Except RollbackError RollbackResult :=
  match strategy with
  | .git => rollback_git head fs modified created
  | .backup => rollback_backup fs modified created
  | .none => (fs, .ok ⟨[], []⟩)

/-- Model of `cleanup_backups` (src/src/apply_and_verify/rollback.rs
lines 199-203). -/
def cleanup_backups (fs : FS) (modified : List ModifiedFile) : FS :=
  modified.foldl (fun fs f => fsRemove fs f.backup_path) fs

/-! ### The diff applier over the working tree
(src/src/apply_and_verify/diff_applier.rs lines 59-157) -/

/-- The backup directory `<working_dir>/.llmux/backups`
(src/src/apply_and_verify/diff_applier.rs line 63); paths are kept
relative to the working directory throughout the model. -/
def backup_dir : Str := txt ".llmux/backups/"

/-- The final component of a path, Rust `Path::file_name` for the plain
relative paths the model handles. -/
def last_component (p : Str) : Str :=
  (p.reverse.takeWhile fun c => c ≠ '/').reverse

/-- The backup blob's name
(src/src/apply_and_verify/diff_applier.rs lines 139-149):
`<backup_dir>/<filename>.<stamp>`.  The unix-millisecond timestamp is
modelled by a fresh counter — the code needs the names only to be
fresh. -/
def backup_name (p : Str) (counter : Nat) : Str :=
  backup_dir ++ last_component p ++ ['.'] ++ (toString counter).data

/-- The applier's running state: the tree plus the manifest built so far
and the freshness counter for backup names. -/
structure ApplyState where
  fs : FS
  modified : List ModifiedFile
  created : List Str
  counter : Nat

/-- The manifest `DiffApplier::apply` returns
(src/src/apply_and_verify/diff_applier.rs lines 38-44). -/
structure ApplyOutcome where
  modified_files : List ModifiedFile
  created_files : List Str
deriving DecidableEq

/-- Model of `DiffApplier::create_backup`
(src/src/apply_and_verify/diff_applier.rs lines 132-157): error when the
file is missing, otherwise copy it to a fresh blob under the backup
directory. -/
def create_backup (st : ApplyState) (path : Str) :
    Except ApplyError (Str × ApplyState) :=
  if fsExists st.fs path then
    let bp := backup_name path st.counter
    .ok (bp,
      { st with
          fs := fsWrite st.fs bp ((fsRead st.fs path).getD [])
          counter := st.counter + 1 })
  else .error (.fileNotFound path)

/-- One iteration of the edit loop of `DiffApplier::apply`
(src/src/apply_and_verify/diff_applier.rs lines 79-123).  The state
returned alongside an error is the tree as already mutated when the error
struck — the loop in the source has no compensation of its own. -/
def apply_edit (st : ApplyState) (e : EditOperation) :
    ApplyState × Option ApplyError :=
  match e with
  | .unifiedDiff path hunks =>
      match create_backup st path with
      | .error err => (st, some err)
      | .ok (bp, st1) =>
          match apply_unified_diff ((fsRead st1.fs path).getD []) hunks with
          | .error err => (st1, some err)
          | .ok new_content =>
              ({ st1 with
                  fs := fsWrite st1.fs path new_content
                  modified := st1.modified ++ [⟨path, bp⟩] }, Option.none)
  | .oldNewPair path old new =>
      match create_backup st path with
      | .error err => (st, some err)
      | .ok (bp, st1) =>
          match apply_old_new path ((fsRead st1.fs path).getD []) old new with
          | .error err => (st1, some err)
          | .ok new_content =>
              ({ st1 with
                  fs := fsWrite st1.fs path new_content
                  modified := st1.modified ++ [⟨path, bp⟩] }, Option.none)
  | .fullFile path content =>
      if fsExists st.fs path then
        match create_backup st path with
        | .error err => (st, some err)
        | .ok (bp, st1) =>
            ({ st1 with
                fs := fsWrite st1.fs path content
                modified := st1.modified ++ [⟨path, bp⟩] }, Option.none)
      else
        ({ st with
            fs := fsWrite st.fs path content
            created := st.created ++ [path] }, Option.none)

/-- The edit loop of `DiffApplier::apply`: stop at the first error, the
mutations so far kept. -/
def apply_edits_loop : ApplyState → List EditOperation → ApplyState × Option ApplyError
  | st, [] => (st, Option.none)
  | st, e :: rest =>
      match apply_edit st e with
      | (st1, some err) => (st1, some err)
      | (st1, Option.none) => apply_edits_loop st1 rest

/-- Model of `DiffApplier::apply`
(src/src/apply_and_verify/diff_applier.rs lines 69-129): the mutated tree
and counter come back in every case; the manifest only on success. -/
def diff_applier_apply (fs : FS) (counter : Nat) (edits : List EditOperation) :
    FS × Nat × Except ApplyError ApplyOutcome :=
  let (st, err) := apply_edits_loop ⟨fs, [], [], counter⟩ edits
  match err with
  | some e => (st.fs, st.counter, .error e)
  | Option.none => (st.fs, st.counter, .ok ⟨st.modified, st.created⟩)

/-! ### Verification and the apply-verify loop
(src/src/apply_and_verify/verification.rs,
src/src/apply_and_verify/retry_loop.rs) -/

/-- What a verification run reports
(src/src/apply_and_verify/verification.rs lines 27-35); exit code and
duration are out of the model. -/
structure VerifyResult where
  success : Bool
  stdout : Str
  stderr : Str
deriving DecidableEq

/-- Model of `VerifyResult::combined_output`
(src/src/apply_and_verify/verification.rs lines 69-81). -/
def combined_output (r : VerifyResult) : Str :=
  (if r.stdout.isEmpty then [] else txt "=== stdout ===\n" ++ r.stdout ++ ['\n']) ++
  (if r.stderr.isEmpty then [] else txt "=== stderr ===\n" ++ r.stderr)

/-- Replace every non-overlapping occurrence, Rust `str::replace`; same
fuel discipline as `count_matches_go`. -/
def replace_all_go (pat repl : Str) : Nat → Str → Str
  | 0, s => s
  | _ + 1, [] => []
  | fuel + 1, c :: rest =>
      if starts_with (c :: rest) pat then
        repl ++ replace_all_go pat repl fuel (List.drop (pat.length - 1) rest)
      else c :: replace_all_go pat repl fuel rest

/-- Rust `str::replace`: an empty pattern matches at every character
boundary. -/
def replace_all (s pat repl : Str) : Str :=
  if pat.isEmpty then repl ++ (s.map fun c => c :: repl).flatten
  else replace_all_go pat repl s.length s

/-- Model of `build_retry_prompt`
(src/src/apply_and_verify/retry_loop.rs lines 197-210). -/
def build_retry_prompt (original error_context : Str) (template : Option Str) : Str :=
  match template with
  | some tmpl =>
      replace_all (replace_all tmpl (txt "\x7b\x7b original \x7d\x7d") original)
        (txt "\x7b\x7b error \x7d\x7d") error_context
  | Option.none =>
      txt "The previous edit attempt failed verification.\n\nOriginal edits:\n" ++
      original ++ txt "\n\nVerification error:\n" ++ error_context ++
      txt "\n\nPlease provide corrected edits."

/-- The loop configuration (src/src/apply_and_verify/retry_loop.rs lines
35-50).  `verify_command` is `none` when no verification is configured;
otherwise it gives the result of running the configured command on the
n-th attempt (an oracle for the subprocess; spawn failures are out of the
model, so `run_verify` is total here).  Timeouts and the source-step name
play no part in the modelled control flow. -/
structure ApplyVerifyConfig where
  verify_command : Option (Nat → VerifyResult)
  verify_retries : Nat
  rollback_strategy : RollbackStrategy
  retry_prompt : Option Str

/-- Loop errors (src/src/apply_and_verify/retry_loop.rs lines 13-31)
reachable in the model. -/
inductive ApplyVerifyError
  | parseFailed (e : EditParseError)
  | applyFailed (e : ApplyError)
  | maxRetriesExceeded (attempts : Nat)
deriving DecidableEq

/-- One attempt's record (src/src/apply_and_verify/retry_loop.rs lines
68-81); the duration is out of the model. -/
structure AttemptResult where
  attempt : Nat
  modified_files : List ModifiedFile
  created_files : List Str
  verify_success : Bool
deriving DecidableEq

/-- The attempt loop of `apply_and_verify`
(src/src/apply_and_verify/retry_loop.rs lines 116-194), fueled by the
remaining attempts.  `parse` stands for `parse_edits` with its oracle
sub-parsers fixed; `head` is the source-control checkpoint for the git
strategy.  Parse and apply errors propagate at once (the source's `?`),
with the tree exactly as mutated so far and no rollback; a failed
verification rolls back (the result discarded, as the source's
`let _ =`) and retries while attempts remain. -/
def apply_and_verify_loop
    (parse : Str → Except EditParseError (List EditOperation))
    (cfg : ApplyVerifyConfig) (head : Str → Option Str) :
    Nat → Nat → Str → FS → Nat → List AttemptResult →
      FS × List AttemptResult × Except ApplyVerifyError Bool
  | 0, _, _, fs, _, attempts =>
      (fs, attempts, .error (.maxRetriesExceeded (cfg.verify_retries + 1)))
  | fuel + 1, attempt_num, current_output, fs, counter, attempts =>
      match parse current_output with
      | .error e => (fs, attempts, .error (.parseFailed e))
      | .ok edits =>
        let (fs1, counter1, apply_res) := diff_applier_apply fs counter edits
        match apply_res with
        | .error e => (fs1, attempts, .error (.applyFailed e))
        | .ok outcome =>
          let vres : Option VerifyResult :=
            match cfg.verify_command with
            | some run => some (run attempt_num)
            | Option.none => Option.none
          let success := match vres with
            | some r => r.success
            | Option.none => true
          let attempts1 := attempts ++
            [⟨attempt_num, outcome.modified_files, outcome.created_files, success⟩]
          if success then
            (cleanup_backups fs1 outcome.modified_files, attempts1, .ok true)
          else
            let fs2 := (rollback cfg.rollback_strategy head fs1
              outcome.modified_files outcome.created_files).1
            if attempt_num < cfg.verify_retries + 1 then
              let error_context := match vres with
                | some r => combined_output r
                | Option.none => []
              apply_and_verify_loop parse cfg head fuel (attempt_num + 1)
                (build_retry_prompt current_output error_context cfg.retry_prompt)
                fs2 counter1 attempts1
            else
              (fs2, attempts1, .error (.maxRetriesExceeded (cfg.verify_retries + 1)))

/-- Model of `apply_and_verify`
(src/src/apply_and_verify/retry_loop.rs lines 106-194): at most
`verify_retries + 1` attempts, starting from attempt 1.  Returns the
final tree, the attempts made, and success or the terminal error. -/
def apply_and_verify (parse : Str → Except EditParseError (List EditOperation))
    (cfg : ApplyVerifyConfig) (head : Str → Option Str)
    (source_output : Str) (fs : FS) :
    FS × List AttemptResult × Except ApplyVerifyError Bool :=
  apply_and_verify_loop parse cfg head (cfg.verify_retries + 1) 1
    source_output fs 0 []

/-! ### The parallel role executor (src/src/role/role_executor.rs) -/

/-- A resolved role (src/src/role/role_resolver.rs): its backends in
declaration order and the parallel-mode quorum. -/
structure ResolvedRole where
  name : Str
  backends : List Str
  min_success : Nat

/-- Role execution outcome (src/src/role/role_executor.rs lines 36-55);
the two hash maps are modelled as association lists in insertion order,
and the duration and mode tag are out of the model. -/
structure RoleResult where
  output : Option Str
  outputs : List (Str × Str)
  succeeded : List Str
  failed : List (Str × Str)
deriving DecidableEq

/-- Role execution errors (src/src/role/role_executor.rs lines 15-33)
reachable in parallel mode. -/
inductive ExecutionError
  | allFailed (errors : List (Str × Str))
  | insufficientSuccesses (got needed : Nat)
      (outputs : List (Str × Str)) (errors : List (Str × Str))
deriving DecidableEq

/-- Model of `RoleExecutor::execute_parallel`
(src/src/role/role_executor.rs lines 156-236).  `backends_cfg` gives each
backend's `enabled` flag (`none` for one not configured, which is
skipped); `results` the outcome of each backend's task (an oracle for the
concurrent executions; task panics are out of the model).  The handles
are awaited in spawn order, so `outputs`, `succeeded` and `failed` are in
role-declaration order; but the primary output iterates the `outputs`
`HashMap`, whose arbitrary iteration order enters as `hash_order` — a
faithful run instantiates it with any permutation. -/
def execute_parallel (backends_cfg : Str → Option Bool)
    (results : Str → Except Str Str)
    (hash_order : List (Str × Str) → List (Str × Str))
    (role : ResolvedRole) : Except ExecutionError RoleResult :=
  let active := role.backends.filter fun n => backends_cfg n == some true
  let outputs := active.filterMap fun n =>
    match results n with
    | .ok text => some (n, text)
    | .error _ => Option.none
  let succeeded := outputs.map Prod.fst
  let failed := active.filterMap fun n =>
    match results n with
    | .error e => some (n, e)
    | .ok _ => Option.none
  if succeeded.length < role.min_success then
    .error (.insufficientSuccesses succeeded.length role.min_success outputs failed)
  else
    let combined :=
      if outputs.isEmpty then Option.none
      else some (List.intercalate (txt "\n\n")
        ((hash_order outputs).map fun kv => txt "=== " ++ kv.1 ++ txt " ===\n" ++ kv.2))
    .ok ⟨combined, outputs, succeeded, failed⟩

/-! ### Concrete fixtures -/

/-- A two-file working tree for exercising the apply-verify loop. -/
def fsC1 : FS := [(txt "a.rs", txt "Aold"), (txt "b.rs", txt "B")]

/-- The parse oracle standing for `parse_edits` on a source blob that
decodes to two OldNewPair edits: the first matches `a.rs`, the second
names text absent from `b.rs`. -/
def parseC1 : Str → Except EditParseError (List EditOperation) := fun _ =>
  .ok [.oldNewPair (txt "a.rs") (txt "Aold") (txt "Anew"),
       .oldNewPair (txt "b.rs") (txt "missing") (txt "x")]

/-- A loop configuration with an always-failing verifier, no retries and
the backup rollback strategy. -/
def cfgC1 : ApplyVerifyConfig :=
  ⟨some (fun _ => ⟨false, [], []⟩), 0, RollbackStrategy.backup, Option.none⟩

/-- A parallel role over backends `a` then `b` (declaration order). -/
def roleC3 : ResolvedRole := ⟨txt "review", [txt "a", txt "b"], 1⟩

/-- Both backends configured and enabled. -/
def backendsCfgC3 : Str → Option Bool := fun _ => some true

/-- Both backends succeed: `a` answers `x`, `b` answers `y`. -/
def resultsC3 : Str → Except Str Str := fun n =>
  if n = txt "a" then .ok (txt "x") else .ok (txt "y")

/-- A hunk deleting line `l1` at `old_start = 1`. -/
def hunkC2a : DiffHunk := ⟨1, 1, 1, 0, [DiffLine.remove (txt "l1")]⟩

/-- A hunk deleting line `l3` at `old_start = 3`. -/
def hunkC2b : DiffHunk := ⟨3, 1, 2, 0, [DiffLine.remove (txt "l3")]⟩

/-! ## Theorems -/

/-- Each escaped character contributes at least one character, so the
quoted body is at least as long as the input. -/
lemma escape_body_length (s : Str) :
    s.length ≤
      ((s.map fun c =>
        if c = '\'' then ['\'', '\\', '\'', '\''] else [c]).flatten).length := by
  induction s with
  | nil => simp
  | cons c cs ih =>
      rw [List.map_cons, List.flatten_cons, List.length_append, List.length_cons]
      have h1 : 1 ≤ (if c = '\'' then ['\'', '\\', '\'', '\''] else [c]).length := by
        split <;> simp
      omega

/-- C7: `context_matches(file, pos, ctx)` is true exactly when the context
fits inside the file at `pos` and every context line equals the
corresponding file line under `normalize_whitespace`, which trims each
line's trailing whitespace and keeps its leading whitespace. -/
theorem C7_context_matches_iff (lines : List Str) (pos : Nat) (ctx : List Str) :
    context_matches lines pos ctx = true ↔
      (pos + ctx.length ≤ lines.length ∧
        ∀ i, i < ctx.length →
          normalize_whitespace (lines.getD (pos + i) []) =
            normalize_whitespace (ctx.getD i [])) := by
  unfold context_matches
  by_cases h : lines.length < pos + ctx.length
  · simp only [if_pos h]
    constructor
    · intro hf; simp at hf
    · rintro ⟨h1, -⟩; omega
  · simp only [if_neg h]
    rw [List.all_eq_true]
    constructor
    · intro hall
      refine ⟨by omega, fun i hi => ?_⟩
      exact eq_of_beq (hall i (List.mem_range.mpr hi))
    · rintro ⟨-, hall⟩ i hi
      exact beq_iff_eq.mpr (hall i (List.mem_range.mp hi))

/-- C8 counterexample: `é` (U+00E9) is alphanumeric to Rust, so
`shell_escape` returns the string unchanged although it is not in the
class `[A-Za-z0-9_\-./]` the claim names. -/
theorem C8_counterexample_unicode :
    filter_shell_escape (txt "é") = txt "é" ∧
      (txt "é").all ascii_safe_class = false := by
  constructor
  · rfl
  · rfl

/-- C8 (amended): for strings in the modelled Latin-1 range,
`shell_escape` returns its input unchanged exactly when every character
is alphanumeric in Rust's Unicode sense or one of `_`, `-`, `.`, `/`;
otherwise the result is the single-quoted escape, which is strictly
longer than the input. -/
theorem C8_shell_escape_unchanged_iff (s : Str)
    (h : ∀ c ∈ s, c.toNat < 0x100) :
    filter_shell_escape s = s ↔ s.all shell_escape_safe = true := by
  clear h
  constructor
  · intro he
    by_contra hall
    have hlen := escape_body_length s
    rw [filter_shell_escape, if_neg hall] at he
    have := congrArg List.length he
    simp only [List.length_append, List.length_cons, List.length_nil] at this
    omega
  · intro hall
    rw [filter_shell_escape, if_pos hall]

/-- C8 witness: the amended statement at the concrete input `a b`. -/
theorem C8_shell_escape_witness :
    filter_shell_escape (txt "a b") = txt "a b" ↔
      (txt "a b").all shell_escape_safe = true :=
  C8_shell_escape_unchanged_iff (txt "a b") (by decide)

/-- Invariant of the candidate loop of `suggest_correction`: starting from
a state that is either the initial sentinel or a recorded best candidate,
the loop returns no match only when nothing qualified, and a match only at
the minimal distance seen, within the bound. -/
lemma suggestGo_spec (typo : Str) (maxd : Nat) (hmax : maxd < USIZE_MAX)
    (cs : List Str) :
    ∀ (best : Option Str) (bestd : Nat),
      ((best = Option.none ∧ bestd = USIZE_MAX) ∨
        (∃ b, best = some b ∧ levenshtein_distance typo b = bestd ∧ bestd ≤ maxd)) →
      (((suggestGo typo maxd best bestd cs).1 = Option.none →
          best = Option.none ∧
            ∀ c ∈ cs, ¬ levenshtein_distance typo c ≤ maxd) ∧
        (∀ c, (suggestGo typo maxd best bestd cs).1 = some c →
          levenshtein_distance typo c = (suggestGo typo maxd best bestd cs).2 ∧
          (suggestGo typo maxd best bestd cs).2 ≤ maxd ∧
          (suggestGo typo maxd best bestd cs).2 ≤ bestd ∧
          (best = some c ∨ c ∈ cs) ∧
          ∀ c2 ∈ cs,
            (suggestGo typo maxd best bestd cs).2 ≤ levenshtein_distance typo c2)) := by
  induction cs with
  | nil =>
      intro best bestd hinv
      constructor
      · intro hnone
        rcases hinv with ⟨hb, _⟩ | ⟨b, hb, _, _⟩
        · exact ⟨hb, by simp⟩
        · rw [suggestGo, hb] at hnone; cases hnone
      · intro c hc
        rw [suggestGo] at hc
        rcases hinv with ⟨hb, _⟩ | ⟨b, hb, hlev, hle⟩
        · rw [hb] at hc; cases hc
        · rw [hb] at hc
          obtain rfl : b = c := by cases hc; rfl
          exact ⟨by rw [suggestGo]; exact hlev, by rw [suggestGo]; exact hlev ▸ hle,
            by rw [suggestGo], Or.inl hb, by simp⟩
  | cons c0 cs ih =>
      intro best bestd hinv
      by_cases hcond : levenshtein_distance typo c0 < bestd ∧
          levenshtein_distance typo c0 ≤ maxd
      · have hstep : suggestGo typo maxd best bestd (c0 :: cs) =
            suggestGo typo maxd (some c0) (levenshtein_distance typo c0) cs := by
          rw [suggestGo, if_pos hcond]
        have hrec := ih (some c0) (levenshtein_distance typo c0)
          (Or.inr ⟨c0, rfl, rfl, hcond.2⟩)
        rw [hstep]
        constructor
        · intro hnone
          rcases (hrec.1 hnone).1 with h
          cases h
        · intro c hc
          obtain ⟨hlev, hle, hlebd, hor, hall⟩ := hrec.2 c hc
          refine ⟨hlev, hle, by omega, ?_, ?_⟩
          · rcases hor with h | h
            · obtain rfl : c0 = c := by cases h; rfl
              exact Or.inr (List.mem_cons_self _ _)
            · exact Or.inr (List.mem_cons_of_mem _ h)
          · intro c2 hc2
            rcases List.mem_cons.mp hc2 with rfl | h
            · exact hlebd
            · exact hall c2 h
      · have hstep : suggestGo typo maxd best bestd (c0 :: cs) =
            suggestGo typo maxd best bestd cs := by
          rw [suggestGo, if_neg hcond]
        have hrec := ih best bestd hinv
        rw [hstep]
        constructor
        · intro hnone
          obtain ⟨hbnone, hall⟩ := hrec.1 hnone
          refine ⟨hbnone, fun c hc => ?_⟩
          rcases List.mem_cons.mp hc with rfl | h
          · intro hdle
            rcases hinv with ⟨_, rfl⟩ | ⟨b, hb, _, _⟩
            · exact hcond ⟨by omega, hdle⟩
            · rw [hb] at hbnone; cases hbnone
          · exact hall c h
        · intro c hc
          obtain ⟨hlev, hle, hlebd, hor, hall⟩ := hrec.2 c hc
          refine ⟨hlev, hle, hlebd, ?_, ?_⟩
          · rcases hor with h | h
            · exact Or.inl h
            · exact Or.inr (List.mem_cons_of_mem _ h)
          · intro c2 hc2
            rcases List.mem_cons.mp hc2 with rfl | h
            · rcases hinv with ⟨_, rfl⟩ | ⟨b, hb, hblev, hble⟩
              · omega
              · omega
            · exact hall c2 h

/-- C9: when `suggest_correction` returns a candidate it is one of the
candidates, at minimal Levenshtein distance from the typo, within the
bound `max(len/2, 2)`; when it returns nothing, every candidate is beyond
that bound.  The bound hypothesis only excludes typos of astronomical
byte length (at least `2 * (2^64 - 1)` bytes), which no Rust string
attains. -/
theorem C9_suggest_correction_spec (typo : Str) (candidates : List Str)
    (hbound : max (utf8_len typo / 2) 2 < USIZE_MAX) :
    (∀ c, suggest_correction typo candidates = some c →
        c ∈ candidates ∧
        levenshtein_distance typo c ≤ max (utf8_len typo / 2) 2 ∧
        ∀ c2 ∈ candidates,
          levenshtein_distance typo c ≤ levenshtein_distance typo c2) ∧
    (suggest_correction typo candidates = Option.none →
        ∀ c2 ∈ candidates,
          max (utf8_len typo / 2) 2 < levenshtein_distance typo c2) := by
  have h := suggestGo_spec typo (max (utf8_len typo / 2) 2) hbound candidates
    Option.none USIZE_MAX (Or.inl ⟨rfl, rfl⟩)
  by_cases hemp : candidates.isEmpty
  · have hc : candidates = [] := List.isEmpty_iff.mp hemp
    subst hc
    constructor
    · intro c hc2
      rw [suggest_correction] at hc2
      cases hc2
    · intro _ c2 hc2
      cases hc2
  · constructor
    · intro c hc
      rw [suggest_correction, if_neg hemp] at hc
      obtain ⟨hlev, hle, _, hor, hall⟩ := h.2 c hc
      refine ⟨?_, by omega, ?_⟩
      · rcases hor with h2 | h2
        · cases h2
        · exact h2
      · intro c2 hc2
        have := hall c2 hc2
        omega
    · intro hnone c2 hc2
      rw [suggest_correction, if_neg hemp] at hnone
      have := (h.1 hnone).2 c2 hc2
      omega

/-- C9 witness: the theorem at the typo `anaylze` against the single
candidate `analyze`. -/
theorem C9_suggest_correction_witness :
    (∀ c, suggest_correction (txt "anaylze") [txt "analyze"] = some c →
        c ∈ [txt "analyze"] ∧
        levenshtein_distance (txt "anaylze") c ≤
          max (utf8_len (txt "anaylze") / 2) 2 ∧
        ∀ c2 ∈ [txt "analyze"],
          levenshtein_distance (txt "anaylze") c ≤
            levenshtein_distance (txt "anaylze") c2) ∧
    (suggest_correction (txt "anaylze") [txt "analyze"] = Option.none →
        ∀ c2 ∈ [txt "analyze"],
          max (utf8_len (txt "anaylze") / 2) 2 <
            levenshtein_distance (txt "anaylze") c2) :=
  C9_suggest_correction_spec (txt "anaylze") [txt "analyze"] (by decide)

/-- C4 counterexample: in the file `x \nx` (a trailing space on the first
line) the old text `x ` occurs literally exactly once, yet `apply_old_new`
fails with AmbiguousMatch, because the match count is taken on the
whitespace-normalized text `x\nx`, where `x` occurs twice. -/
theorem C4_counterexample_literal_once_ambiguous :
    apply_old_new [] (txt "x \nx") (txt "x ") (txt "y") =
      .error (.ambiguousMatch []) ∧
    count_matches (txt "x \nx") (txt "x ") = 1 := by
  exact ⟨by decide, by decide⟩

/-- C4 (amended): `apply_old_new` fails with AmbiguousMatch exactly when
the normalized old text occurs more than once in the normalized file; it
fails with OldTextNotFound exactly when the normalized old text does not
occur at all, or occurs exactly once while literal replacement changes
nothing and no window of file lines matches old's lines under
`normalize_whitespace`; with exactly one normalized occurrence it returns
the first literal replacement when that changes the content, and
otherwise splices new's lines over the first matching window. -/
theorem C4_apply_old_new_spec (path content old new : Str) :
    (apply_old_new path content old new = .error (.ambiguousMatch path) ↔
      1 < count_matches (normalize_whitespace content) (normalize_whitespace old)) ∧
    ((apply_old_new path content old new = .error (.oldTextNotFound path) ∨
      apply_old_new path content old new = .error (.oldTextNotFound [])) ↔
      (count_matches (normalize_whitespace content) (normalize_whitespace old) = 0 ∨
       (count_matches (normalize_whitespace content) (normalize_whitespace old) = 1 ∧
        replacen_one content old new = content ∧
        ∀ i ∈ List.range ((rust_lines content).length - (rust_lines old).length + 1),
          ¬ window_matches (rust_lines content) (rust_lines old) i = true))) ∧
    (count_matches (normalize_whitespace content) (normalize_whitespace old) = 1 →
      replacen_one content old new ≠ content →
      apply_old_new path content old new = .ok (replacen_one content old new)) ∧
    (count_matches (normalize_whitespace content) (normalize_whitespace old) = 1 →
      replacen_one content old new = content →
      ∀ i, (List.range ((rust_lines content).length - (rust_lines old).length + 1)).find?
          (fun j => window_matches (rust_lines content) (rust_lines old) j) = some i →
      apply_old_new path content old new =
        .ok (List.intercalate ['\n']
          ((rust_lines content).take i ++ rust_lines new ++
            (rust_lines content).drop (i + (rust_lines old).length)))) := by
  have hone : count_matches (normalize_whitespace content) (normalize_whitespace old) ≠ 0 →
      ¬ 1 < count_matches (normalize_whitespace content) (normalize_whitespace old) →
      count_matches (normalize_whitespace content) (normalize_whitespace old) = 1 := by
    omega
  unfold apply_old_new
  split_ifs with h0 h1 h2
  · refine ⟨?_, ?_, ?_, ?_⟩
    · constructor
      · intro h; cases h
      · intro h; omega
    · constructor
      · intro _; exact Or.inl h0
      · intro _; exact Or.inl rfl
    · intro h; omega
    · intro h; omega
  · refine ⟨?_, ?_, ?_, ?_⟩
    · exact ⟨fun _ => h1, fun _ => rfl⟩
    · constructor
      · intro h; rcases h with h | h <;> cases h
      · intro h
        rcases h with h | h
        · exact absurd h h0
        · omega
    · intro h; omega
    · intro h; omega
  · have hm := hone h0 h1
    unfold replace_normalized
    rcases hfind : (List.range ((rust_lines content).length - (rust_lines old).length + 1)).find?
        (fun j => window_matches (rust_lines content) (rust_lines old) j) with _ | i
    · refine ⟨?_, ?_, ?_, ?_⟩
      · constructor
        · intro h; cases h
        · intro h; omega
      · constructor
        · intro _
          refine Or.inr ⟨hm, h2, fun i hi => ?_⟩
          have := List.find?_eq_none.mp hfind i hi
          simpa using this
        · intro _; exact Or.inr rfl
      · intro _ h; exact absurd h2 h
      · intro _ _ i hi
        cases hi
    · refine ⟨?_, ?_, ?_, ?_⟩
      · constructor
        · intro h; cases h
        · intro h; omega
      · constructor
        · intro h; rcases h with h | h <;> cases h
        · intro h
          rcases h with h | h
          · exact absurd h h0
          · obtain ⟨-, -, hall⟩ := h
            have hmem := List.find?_some hfind
            have hin : i ∈ List.range ((rust_lines content).length - (rust_lines old).length + 1) :=
              List.mem_of_find?_eq_some hfind
            exact absurd (by simpa using hmem) (hall i hin)
      · intro _ h; exact absurd h2 h
      · intro _ _ j hj
        obtain rfl : i = j := by cases hj; rfl
        rfl
  · refine ⟨?_, ?_, ?_, ?_⟩
    · constructor
      · intro h; cases h
      · intro h; omega
    · constructor
      · intro h; rcases h with h | h <;> cases h
      · intro h
        rcases h with h | h
        · exact absurd h h0
        · exact absurd h.2.1 h2
    · intro _ _; rfl
    · intro _ h; exact absurd h h2

/-- C4 witness: the amended statement at the concrete inputs of the
counterexample. -/
theorem C4_apply_old_new_witness :
    (apply_old_new [] (txt "x \nx") (txt "x ") (txt "y") =
        .error (.ambiguousMatch []) ↔
      1 < count_matches (normalize_whitespace (txt "x \nx"))
        (normalize_whitespace (txt "x "))) ∧
    ((apply_old_new [] (txt "x \nx") (txt "x ") (txt "y") =
        .error (.oldTextNotFound []) ∨
      apply_old_new [] (txt "x \nx") (txt "x ") (txt "y") =
        .error (.oldTextNotFound [])) ↔
      (count_matches (normalize_whitespace (txt "x \nx"))
          (normalize_whitespace (txt "x ")) = 0 ∨
       (count_matches (normalize_whitespace (txt "x \nx"))
          (normalize_whitespace (txt "x ")) = 1 ∧
        replacen_one (txt "x \nx") (txt "x ") (txt "y") = txt "x \nx" ∧
        ∀ i ∈ List.range ((rust_lines (txt "x \nx")).length -
            (rust_lines (txt "x ")).length + 1),
          ¬ window_matches (rust_lines (txt "x \nx"))
              (rust_lines (txt "x ")) i = true))) ∧
    (count_matches (normalize_whitespace (txt "x \nx"))
        (normalize_whitespace (txt "x ")) = 1 →
      replacen_one (txt "x \nx") (txt "x ") (txt "y") ≠ txt "x \nx" →
      apply_old_new [] (txt "x \nx") (txt "x ") (txt "y") =
        .ok (replacen_one (txt "x \nx") (txt "x ") (txt "y"))) ∧
    (count_matches (normalize_whitespace (txt "x \nx"))
        (normalize_whitespace (txt "x ")) = 1 →
      replacen_one (txt "x \nx") (txt "x ") (txt "y") = txt "x \nx" →
      ∀ i, (List.range ((rust_lines (txt "x \nx")).length -
            (rust_lines (txt "x ")).length + 1)).find?
          (fun j => window_matches (rust_lines (txt "x \nx"))
            (rust_lines (txt "x ")) j) = some i →
      apply_old_new [] (txt "x \nx") (txt "x ") (txt "y") =
        .ok (List.intercalate ['\n']
          ((rust_lines (txt "x \nx")).take i ++ rust_lines (txt "y") ++
            (rust_lines (txt "x \nx")).drop (i + (rust_lines (txt "x ")).length)))) :=
  C4_apply_old_new_spec [] (txt "x \nx") (txt "x ") (txt "y")

/-- Folding the hunk applier is the same as applying the hunks one at a
time in list order. -/
lemma foldlM_eq_apply_hunks_seq (hs : List DiffHunk) :
    ∀ ls : List Str, hs.foldlM apply_hunk ls = apply_hunks_seq ls hs := by
  induction hs with
  | nil => intro ls; rfl
  | cons h t ih =>
      intro ls
      rw [List.foldlM_cons, apply_hunks_seq]
      cases hh : apply_hunk ls h with
      | error e => rfl
      | ok ls2 => exact ih ls2

/-- C2: `apply_unified_diff` produces exactly the content obtained by
applying the hunks one at a time in reverse declaration order
`Hn, …, H1` (the strict `old_start` ordering hypothesis is the claim's
framing; the equality holds for it). -/
theorem C2_reverse_hunk_application (content : Str) (hunks : List DiffHunk)
    (hsorted : List.Chain' (fun a b => a.old_start < b.old_start) hunks) :
    apply_unified_diff content hunks =
      (apply_hunks_seq (rust_lines content) hunks.reverse).map fun ls =>
        if ends_with_nl content then List.intercalate ['\n'] ls ++ ['\n']
        else List.intercalate ['\n'] ls := by
  clear hsorted
  unfold apply_unified_diff
  rw [foldlM_eq_apply_hunks_seq]
  cases apply_hunks_seq (rust_lines content) hunks.reverse with
  | error e => rfl
  | ok ls => rfl

/-- C2 witness: a four-line file and two deleting hunks with strictly
increasing `old_start`. -/
theorem C2_reverse_hunk_witness :
    apply_unified_diff (txt "l1\nl2\nl3\nl4\n") [hunkC2a, hunkC2b] =
      (apply_hunks_seq (rust_lines (txt "l1\nl2\nl3\nl4\n"))
          [hunkC2a, hunkC2b].reverse).map fun ls =>
        if ends_with_nl (txt "l1\nl2\nl3\nl4\n") then
          List.intercalate ['\n'] ls ++ ['\n']
        else List.intercalate ['\n'] ls :=
  C2_reverse_hunk_application (txt "l1\nl2\nl3\nl4\n") [hunkC2a, hunkC2b]
    (List.chain'_cons.mpr ⟨by decide, List.chain'_singleton _⟩)

/-- C6: `parse_edits` returns the unified-diff pass's result when it is
non-empty, otherwise the direct-JSON pass's when non-empty, otherwise the
fenced-block pass's when non-empty, and fails with `NoEditsFound` when
every pass yields nothing — in particular it never returns an empty
list. -/
theorem C6_parse_edits_priority (pud pj : Str → Except EditParseError (List EditOperation))
    (extract : Str → Option Str) (output : Str) :
    (∀ edits, pud output = .ok edits → edits ≠ [] →
        parse_edits pud pj extract output = .ok edits) ∧
    ((pud output = .ok [] ∨ ∃ e, pud output = .error e) →
      ∀ edits, pj output = .ok edits → edits ≠ [] →
        parse_edits pud pj extract output = .ok edits) ∧
    ((pud output = .ok [] ∨ ∃ e, pud output = .error e) →
      (pj output = .ok [] ∨ ∃ e, pj output = .error e) →
      ∀ s, extract output = some s →
      ∀ edits, pj s = .ok edits → edits ≠ [] →
        parse_edits pud pj extract output = .ok edits) ∧
    ((pud output = .ok [] ∨ ∃ e, pud output = .error e) →
      (pj output = .ok [] ∨ ∃ e, pj output = .error e) →
      (extract output = none ∨
        ∃ s, extract output = some s ∧
          (pj s = .ok [] ∨ ∃ e, pj s = .error e)) →
        parse_edits pud pj extract output = .error .noEditsFound) ∧
    (∀ edits, parse_edits pud pj extract output = .ok edits → edits ≠ []) := by
  have hne : ∀ (r : Except EditParseError (List EditOperation)),
      (r = .ok [] ∨ ∃ e, r = .error e) → nonempty_result r = none := by
    rintro r (rfl | ⟨e, rfl⟩)
    · rfl
    · rfl
  have hok : ∀ (r : Except EditParseError (List EditOperation)) edits,
      r = .ok edits → edits ≠ [] → nonempty_result r = some edits := by
    rintro r edits rfl hne2
    simp only [nonempty_result, List.isEmpty_eq_true]
    simp [hne2]
  have hsome : ∀ (r : Except EditParseError (List EditOperation)) edits,
      nonempty_result r = some edits → edits ≠ [] := by
    intro r edits h
    rcases r with e | l
    · simp [nonempty_result] at h
    · by_cases hl : l.isEmpty
      · simp [nonempty_result, hl] at h
      · simp only [nonempty_result, hl, Bool.false_eq_true, if_false,
          Option.some.injEq] at h
        subst h
        simpa using hl
  refine ⟨?_, ?_, ?_, ?_, ?_⟩
  · intro edits hp hne2
    simp only [parse_edits, hok (pud output) edits hp hne2]
  · intro h1 edits hp hne2
    simp only [parse_edits, hne (pud output) h1, hok (pj output) edits hp hne2]
  · intro h1 h2 s hs edits hp hne2
    simp only [parse_edits, hne (pud output) h1, hne (pj output) h2, hs,
      hok (pj s) edits hp hne2]
  · intro h1 h2 h3
    rcases h3 with h3 | ⟨s, hs, h3⟩
    · simp only [parse_edits, hne (pud output) h1, hne (pj output) h2, h3]
    · simp only [parse_edits, hne (pud output) h1, hne (pj output) h2, hs,
        hne (pj s) h3]
  · intro edits hp
    rw [parse_edits] at hp
    rcases hu : nonempty_result (pud output) with _ | e1
    · simp only [hu] at hp
      rcases hj : nonempty_result (pj output) with _ | e2
      · simp only [hj] at hp
        rcases hx : extract output with _ | s
        · simp only [hx] at hp; cases hp
        · simp only [hx] at hp
          rcases hj2 : nonempty_result (pj s) with _ | e3
          · simp only [hj2] at hp; cases hp
          · simp only [hj2] at hp
            obtain rfl : e3 = edits := by cases hp; rfl
            exact hsome _ _ hj2
      · simp only [hj] at hp
        obtain rfl : e2 = edits := by cases hp; rfl
        exact hsome _ _ hj
    · simp only [hu] at hp
      obtain rfl : e1 = edits := by cases hp; rfl
      exact hsome _ _ hu

/-- Invariant of the retry loop: starting at `attempt` with exactly the
remaining fuel, the loop makes between one and `mr + 1 - attempt` further
invocations, every invocation before the last fails retryably, and the
result is the last invocation's, an error only when non-retryable or the
budget is spent. -/
lemma retry_go_spec {α : Type} (mr : Nat) (backend : Nat → Except BackendError α) :
    ∀ (fuel attempt : Nat), fuel + attempt = mr + 1 → attempt ≤ mr →
      (attempt < (retry_execute_go mr backend fuel attempt).2 ∧
       (retry_execute_go mr backend fuel attempt).2 ≤ mr + 1 ∧
       (∀ i, attempt ≤ i → i + 1 < (retry_execute_go mr backend fuel attempt).2 →
          ∃ e, backend i = .error e ∧ e.is_retryable = true) ∧
       (∀ r, (retry_execute_go mr backend fuel attempt).1 = .ok r →
          backend ((retry_execute_go mr backend fuel attempt).2 - 1) = .ok r) ∧
       (∀ e, (retry_execute_go mr backend fuel attempt).1 = .error e →
          backend ((retry_execute_go mr backend fuel attempt).2 - 1) = .error e ∧
            (e.is_retryable = false ∨
              (retry_execute_go mr backend fuel attempt).2 = mr + 1))) := by
  intro fuel
  induction fuel with
  | zero => intro attempt h1 h2; omega
  | succ f ih =>
      intro attempt h1 h2
      cases hb : backend attempt with
      | ok r =>
          simp only [retry_execute_go, hb]
          refine ⟨by omega, by omega, ?_, ?_, ?_⟩
          · intro i hi1 hi2; exact absurd hi2 (by omega)
          · intro r2 hr
            obtain rfl : r = r2 := by cases hr; rfl
            simpa using hb
          · intro e he; cases he
      | error e =>
          by_cases hcond : e.is_retryable = false ∨ attempt = mr
          · simp only [retry_execute_go, hb, if_pos hcond]
            refine ⟨by omega, by omega, ?_, ?_, ?_⟩
            · intro i hi1 hi2; exact absurd hi2 (by omega)
            · intro r hr; cases hr
            · intro e2 he2
              obtain rfl : e = e2 := by cases he2; rfl
              refine ⟨by simpa using hb, ?_⟩
              rcases hcond with h | h
              · exact Or.inl h
              · exact Or.inr (by omega)
          · simp only [retry_execute_go, hb, if_neg hcond]
            have hret : e.is_retryable = true := by
              cases hbool : e.is_retryable
              · exact absurd hbool (not_or.mp hcond).1
              · rfl
            have hatt : attempt ≠ mr := (not_or.mp hcond).2
            obtain ⟨ha, hb2, hc, hd, he2⟩ := ih (attempt + 1) (by omega) (by omega)
            refine ⟨by omega, hb2, ?_, hd, he2⟩
            intro i hi1 hi2
            rcases Nat.eq_or_lt_of_le hi1 with rfl | hlt
            · exact ⟨e, hb, hret⟩
            · exact hc i (by omega) hi2

/-- The attempt loop can add at most `fuel` entries to the attempt
list. -/
lemma apply_and_verify_loop_attempts
    (parse : Str → Except EditParseError (List EditOperation))
    (cfg : ApplyVerifyConfig) (head : Str → Option Str) :
    ∀ (fuel attempt_num : Nat) (out : Str) (fs : FS) (counter : Nat)
      (attempts : List AttemptResult),
      (apply_and_verify_loop parse cfg head fuel attempt_num out fs
          counter attempts).2.1.length ≤ attempts.length + fuel := by
  intro fuel
  induction fuel with
  | zero =>
      intro attempt_num out fs counter attempts
      simp [apply_and_verify_loop]
  | succ f ih =>
      intro attempt_num out fs counter attempts
      rw [apply_and_verify_loop]
      cases hp : parse out with
      | error e => simp
      | ok edits =>
          rcases hda : diff_applier_apply fs counter edits with ⟨fs1, counter1, apply_res⟩
          simp only [hda]
          cases apply_res with
          | error e => simp
          | ok outcome =>
              simp only []
              split
              · simp
              · split
                · refine le_trans (ih _ _ _ _ _) ?_
                  simp only [List.length_append, List.length_cons, List.length_nil]
                  omega
                · simp only [List.length_append, List.length_cons, List.length_nil]
                  omega

/-- C5: the retry wrapper invokes the wrapped backend at most
`max_retries + 1` times, returns the first success or the first
non-retryable error immediately (every earlier invocation failed
retryably, and an error comes back only non-retryable or with the budget
spent), the retryable set is exactly Timeout, RateLimit, Network; and the
apply-verify loop records at most `verify_retries + 1` attempts. -/
theorem C5_retry_budget :
    (∀ e : BackendError, e.is_retryable = true ↔
      (e = BackendError.timeout ∨ e = BackendError.rateLimit ∨
        e = BackendError.network)) ∧
    (∀ (α : Type) (mr : Nat) (backend : Nat → Except BackendError α),
      (retry_execute mr backend).2 ≤ mr + 1 ∧
      0 < (retry_execute mr backend).2 ∧
      (∀ i, i + 1 < (retry_execute mr backend).2 →
        ∃ e, backend i = .error e ∧ e.is_retryable = true) ∧
      (∀ r, (retry_execute mr backend).1 = .ok r →
        backend ((retry_execute mr backend).2 - 1) = .ok r) ∧
      (∀ e, (retry_execute mr backend).1 = .error e →
        backend ((retry_execute mr backend).2 - 1) = .error e ∧
          (e.is_retryable = false ∨ (retry_execute mr backend).2 = mr + 1))) ∧
    (∀ (parse : Str → Except EditParseError (List EditOperation))
        (cfg : ApplyVerifyConfig) (head : Str → Option Str)
        (out : Str) (fs : FS),
      (apply_and_verify parse cfg head out fs).2.1.length ≤
        cfg.verify_retries + 1) := by
  refine ⟨?_, ?_, ?_⟩
  · intro e; cases e <;> simp [BackendError.is_retryable]
  · intro α mr backend
    unfold retry_execute
    obtain ⟨ha, hb, hc, hd, he⟩ :=
      retry_go_spec mr backend (mr + 1) 0 (by omega) (by omega)
    exact ⟨hb, ha, fun i hi => hc i (by omega) hi, hd, he⟩
  · intro parse cfg head out fs
    have := apply_and_verify_loop_attempts parse cfg head
      (cfg.verify_retries + 1) 1 out fs 0 []
    simpa using this

/-- The closing check of both rollback strategies: a PartialRollback
error exactly on a mixed outcome, and the plain result whenever nothing
was restored. -/
lemma rollback_finish_spec (st : FS × RollbackResult) :
    ((∃ s f, (rollback_finish st).2 = .error (.partialRollback s f)) ↔
      (st.2.restored ≠ [] ∧ st.2.failed ≠ [])) ∧
    (st.2.restored = [] → (rollback_finish st).2 = .ok st.2) ∧
    (st.2.failed = [] → (rollback_finish st).2 = .ok st.2) := by
  unfold rollback_finish
  by_cases hc : ¬ st.2.failed.isEmpty ∧ ¬ st.2.restored.isEmpty
  · rw [if_pos hc]
    obtain ⟨h1, h2⟩ := hc
    refine ⟨⟨fun _ => ⟨?_, ?_⟩, fun _ => ⟨_, _, rfl⟩⟩, ?_, ?_⟩
    · simpa [List.isEmpty_iff] using h2
    · simpa [List.isEmpty_iff] using h1
    · intro hr; exact absurd (by simp [hr]) h2
    · intro hf; exact absurd (by simp [hf]) h1
  · rw [if_neg hc]
    refine ⟨⟨?_, ?_⟩, fun _ => rfl, fun _ => rfl⟩
    · rintro ⟨s, f, h⟩; cases h
    · rintro ⟨hr, hf⟩
      exact absurd ⟨by simpa [List.isEmpty_iff] using hf,
        by simpa [List.isEmpty_iff] using hr⟩ hc

/-- When the checkpoint lacks every path, the git restore loop restores
nothing, fails every path in order, and leaves the tree untouched. -/
lemma git_restore_loop_all_fail (head : Str → Option Str) :
    ∀ (modified : List ModifiedFile) (fs : FS) (r : RollbackResult),
      (∀ f ∈ modified, head f.path = Option.none) →
      git_restore_loop head fs r modified =
        (fs, ⟨r.restored,
          r.failed ++ modified.map fun f => (f.path, txt "git checkout failed")⟩) := by
  intro modified
  induction modified with
  | nil => intro fs r h; simp [git_restore_loop]
  | cons f rest ih =>
      intro fs r h
      rw [git_restore_loop]
      simp only [h f (List.mem_cons_self f rest)]
      rw [ih _ _ fun g hg => h g (List.mem_cons_of_mem f hg)]
      simp

/-- When no listed file exists, the created-files loop removes nothing,
fails every path in order, and leaves the tree untouched. -/
lemma remove_created_loop_all_fail :
    ∀ (created : List Str) (fs : FS) (r : RollbackResult),
      (∀ p ∈ created, fsExists fs p = false) →
      remove_created_loop fs r created =
        (fs, ⟨r.restored,
          r.failed ++ created.map fun p => (p, txt "remove failed")⟩) := by
  intro created
  induction created with
  | nil => intro fs r h; simp [remove_created_loop]
  | cons p rest ih =>
      intro fs r h
      rw [remove_created_loop]
      rw [if_neg (by simp [h p (List.mem_cons_self p rest)])]
      rw [ih _ _ fun q hq => h q (List.mem_cons_of_mem p hq)]
      simp

/-- When every backup blob is missing, the backup restore loop restores
nothing, fails every path in order, and leaves the tree untouched. -/
lemma backup_restore_loop_all_fail :
    ∀ (modified : List ModifiedFile) (fs : FS) (r : RollbackResult),
      (∀ f ∈ modified, fsExists fs f.backup_path = false) →
      backup_restore_loop fs r modified =
        (fs, ⟨r.restored,
          r.failed ++ modified.map fun f => (f.path, txt "backup not found")⟩) := by
  intro modified
  induction modified with
  | nil => intro fs r h; simp [backup_restore_loop]
  | cons f rest ih =>
      intro fs r h
      rw [backup_restore_loop]
      rw [if_neg (by simp [h f (List.mem_cons_self f rest)])]
      rw [ih _ _ fun g hg => h g (List.mem_cons_of_mem f hg)]
      simp

/-- C10: for the git and backup strategies alike, PartialRollback is
returned exactly when at least one path was restored and at least one
failed; whenever nothing was restored the rollback returns Ok, and when
every path fails to restore the Ok result lists every path as failed and
none as restored — a complete rollback failure is not an error. -/
theorem C10_partial_rollback_characterization :
    (∀ (head : Str → Option Str) (fs : FS) (modified : List ModifiedFile)
        (created : List Str),
      ((∃ s f, (rollback_git head fs modified created).2 =
          .error (.partialRollback s f)) ↔
        ((rollback_git_core head fs modified created).2.restored ≠ [] ∧
         (rollback_git_core head fs modified created).2.failed ≠ [])) ∧
      ((rollback_git_core head fs modified created).2.restored = [] →
        (rollback_git head fs modified created).2 =
          .ok (rollback_git_core head fs modified created).2) ∧
      ((∀ f ∈ modified, head f.path = Option.none) →
        (∀ p ∈ created, fsExists fs p = false) →
        (rollback_git_core head fs modified created).2 =
          ⟨[], (modified.map fun f => (f.path, txt "git checkout failed")) ++
            created.map fun p => (p, txt "remove failed")⟩)) ∧
    (∀ (fs : FS) (modified : List ModifiedFile) (created : List Str),
      ((∃ s f, (rollback_backup fs modified created).2 =
          .error (.partialRollback s f)) ↔
        ((rollback_backup_core fs modified created).2.restored ≠ [] ∧
         (rollback_backup_core fs modified created).2.failed ≠ [])) ∧
      ((rollback_backup_core fs modified created).2.restored = [] →
        (rollback_backup fs modified created).2 =
          .ok (rollback_backup_core fs modified created).2) ∧
      ((∀ f ∈ modified, fsExists fs f.backup_path = false) →
        (∀ p ∈ created, fsExists fs p = false) →
        (rollback_backup_core fs modified created).2 =
          ⟨[], (modified.map fun f => (f.path, txt "backup not found")) ++
            created.map fun p => (p, txt "remove failed")⟩)) := by
  constructor
  · intro head fs modified created
    obtain ⟨h1, h2, h3⟩ := rollback_finish_spec (rollback_git_core head fs modified created)
    refine ⟨h1, h2, ?_⟩
    intro hm hc
    unfold rollback_git_core
    rw [git_restore_loop_all_fail head modified fs ⟨[], []⟩ hm]
    rw [remove_created_loop_all_fail created fs _ hc]
    simp
  · intro fs modified created
    obtain ⟨h1, h2, h3⟩ := rollback_finish_spec (rollback_backup_core fs modified created)
    refine ⟨h1, h2, ?_⟩
    intro hm hc
    unfold rollback_backup_core
    rw [backup_restore_loop_all_fail modified fs ⟨[], []⟩ hm]
    rw [remove_created_loop_all_fail created fs _ hc]
    simp

/-- C3: with backends declared `a` then `b`, both enabled and both
succeeding, a legal HashMap iteration order (here the reversal, a
permutation of the entries) makes `execute_parallel` synthesize the
primary output with `b`'s block before `a`'s — not in role-declaration
order, although each succeeded backend contributes exactly one block and
the quorum bookkeeping is in declaration order. -/
theorem C3_output_order_follows_hash_iteration :
    execute_parallel backendsCfgC3 resultsC3 List.reverse roleC3 =
      .ok ⟨some (txt "=== b ===\ny\n\n=== a ===\nx"),
           [(txt "a", txt "x"), (txt "b", txt "y")],
           [txt "a", txt "b"], []⟩ ∧
    txt "=== b ===\ny\n\n=== a ===\nx" ≠ txt "=== a ===\nx\n\n=== b ===\ny" ∧
    List.Perm (List.reverse [(txt "a", txt "x"), (txt "b", txt "y")])
      [(txt "a", txt "x"), (txt "b", txt "y")] := by
  refine ⟨by decide, by decide, ?_⟩
  exact List.reverse_perm _

/-- C1: on a tree where `a.rs` matches the first edit and `b.rs` lacks
the second edit's old text, the loop propagates the apply error after the
first edit has already rewritten `a.rs`: it terminates with the working
tree differing from its pre-attempt state, no attempt recorded and no
rollback performed. -/
theorem C1_partial_apply_without_rollback :
    (apply_and_verify parseC1 cfgC1 (fun _ => Option.none) (txt "blob") fsC1).2.2 =
      .error (.applyFailed (.oldTextNotFound (txt "b.rs"))) ∧
    fsRead (apply_and_verify parseC1 cfgC1 (fun _ => Option.none)
        (txt "blob") fsC1).1 (txt "a.rs") = some (txt "Anew") ∧
    fsRead fsC1 (txt "a.rs") = some (txt "Aold") ∧
    (apply_and_verify parseC1 cfgC1 (fun _ => Option.none) (txt "blob") fsC1).2.1 = [] := by
  exact ⟨by decide, by decide, by decide, by decide⟩

end Llmux
